import Mathlib

/-!
Shallow embedding of the reviews-ratings-worker service layer.

The definitions below translate, function by function, the TypeScript
sources of the repository:

* `src/src/types.ts`                       — data model and error handler
* `src/src/utils/validators.ts`            — `Validators`
* `src/src/services/app-store-service.ts`  — `AppStoreService`
* `src/src/services/aso-market-service.ts` — `ASOMarketService`
* `src/unnamed/part_002`                   — `ReviewsHandler`

Network effects are made explicit: every upstream HTTP interaction is an
input of type `FetchOutcome` (one constructor for any failure — non-2xx
status, network error, timeout, or malformed feed shape, all of which the
source treats alike — and one for a successfully decoded body).  JavaScript
`Date.parse` on the upstream date strings is an explicit parameter
`pd : String → Int` (milliseconds since epoch of a parseable date string).
JavaScript `NaN` produced by `parseInt` is modelled as `none : Option Int`.
-/

namespace ReviewsWorker

/-- Review record (`AppStoreReview` in `src/src/types.ts`).  `rating` and
`helpful_votes` are `Option Int` where `none` models the JavaScript `NaN`
that `parseInt` returns on an unparseable string. -/
structure AppStoreReview where
  id : String
  rating : Option Int
  title : String
  content : String
  author : String
  date : String
  helpful_votes : Option Int
  app_id : String
deriving Repr, DecidableEq

/-- App metadata record (`AppStoreApp` in `src/src/types.ts`). -/
structure AppStoreApp where
  app_id : String
  name : String
  rating : Rat
  rating_count : Int
  reviews_count : Int
  url : String
  last_updated : String
deriving Repr, DecidableEq

/-- Error envelope (`ErrorResponse` in `src/src/types.ts`). -/
structure ErrorResponse where
  error : String
  message : Option String
  app_id : Option String
  timestamp : String
deriving Repr, DecidableEq

/-- JavaScript string-or-default: `a || b` for strings (the empty string is
falsy). -/
def jsOrS (a b : String) : String :=
  if a = "" then b else a

/-- Numeric value of a list of decimal digit characters, most significant
first (the accumulator loop of a decimal parser). -/
def digitsVal (l : List Char) : Nat :=
  l.foldl (fun a c => 10 * a + (c.toNat - 48)) 0

/-- JavaScript `parseInt(s)` (radix 10): skip leading whitespace, optional
sign, read the longest digit run; `none` models the `NaN` result when no
digit is found. -/
def jsParseInt (s : String) : Option Int :=
  let cs := s.data.dropWhile Char.isWhitespace
  let signed : Bool × List Char :=
    match cs with
    | '-' :: rest => (true, rest)
    | '+' :: rest => (false, rest)
    | _ => (false, cs)
  let ds := signed.2.takeWhile Char.isDigit
  if ds.isEmpty then none
  else if signed.1 then some (-(digitsVal ds : Int)) else some (digitsVal ds)

/-! ### Validators (`src/src/utils/validators.ts`) -/

/-- `Validators.isValidAppId`: `/^\d+$/.test(appId) && appId.length > 0`. -/
def isValidAppId (appId : String) : Bool :=
  (!appId.data.isEmpty && appId.data.all Char.isDigit) && decide (0 < appId.length)

/-- `Validators.isValidLimit`: `Number.isInteger(limit) && limit > 0 &&
limit <= 200`.  A JavaScript number is modelled as `Rat`; `Number.isInteger`
is `den = 1`. -/
def isValidLimit (limit : Rat) : Bool :=
  (limit.den == 1 && decide (0 < limit)) && decide (limit ≤ 200)

/-- `Validators.sanitizeLimit`: `Math.min(Math.max(1, Math.floor(limit)),
maxLimit)`. -/
def sanitizeLimit (limit : Rat) (maxLimit : Int) : Int :=
  min (max 1 limit.floor) maxLimit

/-- Body of a `POST /api/reviews/multiple` request as far as
`validateMultipleAppsRequest` inspects it: `app_ids` is `none` when the
field is missing, falsy, or not an array; `limit` is `none` when
`undefined`. -/
structure MultipleAppsRequestData where
  app_ids : Option (List String)
  limit : Option Rat
deriving Repr, DecidableEq

/-- `Validators.validateMultipleAppsRequest`: returns `(isValid, errors)`,
accumulating one error per invalid entry when the array shape checks pass. -/
def validateMultipleAppsRequest (d : MultipleAppsRequestData) :
    Bool × List String :=
  let idErrors : List String :=
    match d.app_ids with
    | none => ["app_ids must be an array"]
    | some ids =>
      if ids.length = 0 then ["app_ids array cannot be empty"]
      else if ids.length > 20 then ["app_ids array cannot contain more than 20 items"]
      else ids.filterMap fun a =>
        if isValidAppId a then none else some ("Invalid app_id: " ++ a)
  let limitErrors : List String :=
    match d.limit with
    | none => []
    | some q =>
      if isValidLimit q then []
      else ["limit must be a positive integer between 1 and 200"]
  ((idErrors ++ limitErrors).isEmpty, idErrors ++ limitErrors)

/-! ### App Store multi-sort review fetch
(`AppStoreService.getReviews`, `src/src/services/app-store-service.ts`) -/

/-- One decoded iTunes RSS feed entry as far as `getReviews` reads it; each
field is the value behind the corresponding optional chain
(`review.content?.label` and so on), `none` when absent. -/
structure FeedEntry where
  content : Option String
  author : Option String
  updated : Option String
  rating : Option String
  title : Option String
  voteSum : Option String
deriving Repr, DecidableEq

/-- Outcome of one per-sort-order feed request: `fail` covers a non-ok
HTTP status, a network error or timeout, and a body without a
`feed.entry` array — all of which the source skips with `continue`. -/
inductive FetchOutcome where
  | fail
  | ok (entries : List FeedEntry)
deriving Repr, DecidableEq

/-- The four sort orders iterated by `getReviews`. -/
def sortOptions : List String :=
  ["mostRecent", "mostHelpful", "mostFavorable", "mostCritical"]

/-- Dedup key of a candidate entry:
`reviewContent.substring(0, 50) + "_" + reviewAuthor + "_" + reviewDate`. -/
def uniqueId (e : FeedEntry) : String :=
  (e.content.getD "").take 50 ++ "_" ++ e.author.getD "" ++ "_" ++ e.updated.getD ""

/-- The review object pushed for a fresh candidate, `n` being
`allReviews.length` at insertion time. -/
def mkAppStoreReview (appId sortBy : String) (n : Nat) (e : FeedEntry) :
    AppStoreReview where
  id := "appstore_" ++ appId ++ "_" ++ sortBy ++ "_" ++ toString n
  rating := jsParseInt (jsOrS (e.rating.getD "") "0")
  title := e.title.getD ""
  content := e.content.getD ""
  author := e.author.getD ""
  date := e.updated.getD ""
  helpful_votes := jsParseInt (jsOrS (e.voteSum.getD "") "0")
  app_id := appId

/-- Loop body over one candidate entry: membership test on the dedup key,
then push of the key and the review. -/
def insertEntry (appId sortBy : String)
    (st : List String × List AppStoreReview) (e : FeedEntry) :
    List String × List AppStoreReview :=
  if uniqueId e ∈ st.1 then st
  else (uniqueId e :: st.1, st.2 ++ [mkAppStoreReview appId sortBy st.2.length e])

/-- Candidate entries taken from one feed outcome:
`data.feed.entry.slice(1, 50)` on success, nothing on failure. -/
def feedEntries : FetchOutcome → List FeedEntry
  | .fail => []
  | .ok es => (es.drop 1).take 49

/-- Loop body over one sort-order feed: a failed request leaves the state
unchanged (`continue`), a successful one folds its candidates through
`insertEntry`. -/
def runFeed (appId : String) (st : List String × List AppStoreReview)
    (feed : String × FetchOutcome) : List String × List AppStoreReview :=
  match feed.2 with
  | .fail => st
  | .ok es => ((es.drop 1).take 49).foldl (insertEntry appId feed.1) st

/-- The deduplicated union `allReviews` accumulated over a list of
(sort-order name, feed outcome) pairs. -/
def collectReviews (appId : String) (feeds : List (String × FetchOutcome)) :
    List AppStoreReview :=
  (feeds.foldl (runFeed appId) ([], [])).2

/-- Descending-by-parsed-date comparison used by
`sort((a, b) => new Date(b.date).getTime() - new Date(a.date).getTime())`. -/
def dateDescLe (pd : String → Int) (a b : AppStoreReview) : Bool :=
  decide (pd b.date ≤ pd a.date)

/-- `AppStoreService.getReviews` over explicit feed outcomes: dedup union,
stable sort by parsed date descending, truncation to `limit`
(`slice(0, limit)`). -/
def getReviews (pd : String → Int) (appId : String) (limit : Nat)
    (feeds : List (String × FetchOutcome)) : List AppStoreReview :=
  ((collectReviews appId feeds).mergeSort (dateDescLe pd)).take limit

/-- The whole multi-sort call: one outcome per sort-order name. -/
def getReviewsFull (pd : String → Int) (appId : String) (limit : Nat)
    (oc : String → FetchOutcome) : List AppStoreReview :=
  getReviews pd appId limit (sortOptions.map fun s => (s, oc s))

/-! ### ASO Market review fetch
(`ASOMarketService.getReviews`, `src/src/services/aso-market-service.ts`) -/

/-- One element of `data.reviews` as far as the mapper reads it.  `rating`
and `helpful_votes` are `Option Int`: `none` models an absent or falsy
numeric field (which `|| 0` turns into `0`). -/
structure AsoRawReview where
  rating : Option Int
  title : Option String
  content : Option String
  author : Option String
  date : Option String
  helpful_votes : Option Int
deriving Repr, DecidableEq

/-- Outcome of the single ASO Market reviews request: `fail` covers a
non-ok status, a network error or timeout, and a body without a `reviews`
array. -/
inductive AsoFetchOutcome where
  | fail
  | ok (reviews : List AsoRawReview)
deriving Repr, DecidableEq

/-- The mapped review for index `i` of `data.reviews`; `now` is the
`new Date().toISOString()` fallback for a falsy date. -/
def mkAsoReview (now appId : String) (i : Nat) (r : AsoRawReview) :
    AppStoreReview where
  id := "asomarket_" ++ appId ++ "_" ++ toString i
  rating := some (r.rating.getD 0)
  title := r.title.getD ""
  content := r.content.getD ""
  author := jsOrS (r.author.getD "") "Anonymous"
  date := jsOrS (r.date.getD "") now
  helpful_votes := some (r.helpful_votes.getD 0)
  app_id := appId

/-- `ASOMarketService.getReviews` over an explicit fetch outcome: empty
list on any upstream failure, index-mapped reviews on success. -/
def asoGetReviews (now appId : String) (oc : AsoFetchOutcome) :
    List AppStoreReview :=
  match oc with
  | .fail => []
  | .ok rs => rs.enum.map fun p => mkAsoReview now appId p.1 p.2

/-! ### Combined metadata-and-reviews calls -/

/-- Error produced by `ErrorHandler.createError(message, originalError)`:
a fresh `Error` with the given message and the original failure as
`cause`. -/
structure WrappedError where
  message : String
  cause : Option String
deriving Repr, DecidableEq

/-- Outcome of a metadata fetch (`getAppMetadata` either throws with a
message or returns the metadata record). -/
inductive MetaOutcome where
  | err (msg : String)
  | ok (app : AppStoreApp)
deriving Repr, DecidableEq

/-- Outcome of a combined `getAppWithReviews` call. -/
inductive CombinedOutcome where
  | err (e : WrappedError)
  | ok (app : AppStoreApp) (reviews : List AppStoreReview)
deriving Repr, DecidableEq

/-- Whether a combined call rejected. -/
def CombinedOutcome.isErr : CombinedOutcome → Bool
  | .err _ => true
  | .ok _ _ => false

/-- Whether a metadata fetch rejected. -/
def MetaOutcome.isErr : MetaOutcome → Bool
  | .err _ => true
  | .ok _ => false

/-- `AppStoreService.getAppWithReviews`: `Promise.all` of the metadata
fetch (which may reject) and `getReviews` (which never rejects); a
rejection is wrapped by `createError("Failed to get app with reviews",
error)`. -/
def getAppWithReviews (pd : String → Int) (appId : String) (limit : Nat)
    (mOut : MetaOutcome) (oc : String → FetchOutcome) : CombinedOutcome :=
  match mOut with
  | .err e => .err ⟨"Failed to get app with reviews", some e⟩
  | .ok m => .ok m (getReviewsFull pd appId limit oc)

/-- `ASOMarketService.getAppWithReviews`, identical shape over the ASO
reviews fetch. -/
def asoGetAppWithReviews (now appId : String)
    (mOut : MetaOutcome) (oc : AsoFetchOutcome) : CombinedOutcome :=
  match mOut with
  | .err e => .err ⟨"Failed to get app with reviews from ASO Market", some e⟩
  | .ok m => .ok m (asoGetReviews now appId oc)

/-! ### Error handler (`ErrorHandler`, `src/src/types.ts`) and the
handler catch path (`ReviewsHandler`, `src/unnamed/part_002`) -/

/-- A JavaScript thrown value: either an `Error` instance carrying a
message, or any non-`Error` value. -/
inductive JsThrown where
  | jsError (message : String)
  | nonError
deriving Repr, DecidableEq

/-- `ErrorHandler.createErrorResponse`. -/
def createErrorResponse (error : String) (message : Option String)
    (app_id : Option String) (now : String) : ErrorResponse :=
  ⟨error, message, app_id, now⟩

/-- `ErrorHandler.handleError`: logs, then builds the envelope — with the
original error message in the `message` field when the thrown value is an
`Error`. -/
def handleError (e : JsThrown) (app_id : Option String) (now : String) :
    ErrorResponse :=
  match e with
  | .jsError m => createErrorResponse "Internal Server Error" (some m) app_id now
  | .nonError => createErrorResponse "Unknown Error" (some "An unexpected error occurred") app_id now

/-- The catch branch of `ReviewsHandler.processSingleAppRequest`: HTTP 500
with the `handleError` envelope. -/
def singleAppCatch (e : JsThrown) (appId : String) (now : String) :
    Nat × ErrorResponse :=
  (500, handleError e (some appId) now)

/-! ### Batch handler (`ReviewsHandler.processMultipleAppsRequest`,
`src/unnamed/part_002`) -/

/-- Modelled from the spec: the per-app record of the results map returned
by `ASOMarketService.getMultipleAppsReviews`, which is not among the
provided sources (only its caller is); per the spec each identifier is
keyed to its metadata (absent on failure) and its review list. -/
structure AppResult where
  metadata : Option AppStoreApp
  reviews : List AppStoreReview
deriving Repr, DecidableEq

/-- Per-app slot of the batch response (`ReviewsResponse` in
`src/src/types.ts`). -/
structure ReviewsResponse where
  app_id : String
  app_metadata : Option AppStoreApp
  reviews : List AppStoreReview
  total_reviews : Nat
  generated_at : String
deriving Repr, DecidableEq

/-- Batch response body (`MultipleAppsResponse` in `src/src/types.ts`). -/
structure MultipleAppsResponse where
  apps : List ReviewsResponse
  total_apps : Nat
  successful_apps : Nat
  generated_at : String
deriving Repr, DecidableEq

/-- Result of `processMultipleAppsRequest`: HTTP 400 with the validation
errors (before any upstream call), or HTTP 200 with the batch response. -/
inductive BatchOutcome where
  | badRequest (errors : List String)
  | ok (resp : MultipleAppsResponse)
deriving Repr, DecidableEq

/-- `ReviewsHandler.processMultipleAppsRequest` over an explicit results
map (`results` stands for the value returned by the service fan-out):
validate, sanitize each identifier with `trim`, build one response slot
per identifier in input order, count the slots with a non-empty review
list. -/
def processMultipleAppsRequest (now : String) (includeMetadata : Bool)
    (d : MultipleAppsRequestData) (results : String → AppResult) :
    BatchOutcome :=
  let v := validateMultipleAppsRequest d
  if v.1 then
    let appIds := (d.app_ids.getD []).map String.trim
    let apps : List ReviewsResponse := appIds.map fun appId =>
      let r := results appId
      { app_id := appId
        app_metadata := if includeMetadata then r.metadata else none
        reviews := r.reviews
        total_reviews := r.reviews.length
        generated_at := now }
    .ok { apps := apps
          total_apps := apps.length
          successful_apps := (apps.filter fun a => 0 < a.reviews.length).length
          generated_at := now }
  else .badRequest v.2

/-! ### GET query parsing (`ReviewsHandler.handleSingleAppReviews`) -/

/-- The `include_metadata` flag of the GET handler:
`url.searchParams.get('include_metadata') !== 'false'`, where `get`
returns `null` (`none`) for an absent parameter. -/
def parseIncludeMetadata (q : Option String) : Bool :=
  decide (q ≠ some "false")

/-! ### Derived views of the multi-sort loop, used to reason about it -/

/-- All candidate entries of a run, each tagged with the sort-order name of
the feed it came from, in processing order. -/
def taggedEntries (feeds : List (String × FetchOutcome)) :
    List (String × FeedEntry) :=
  (feeds.map fun f => (feedEntries f.2).map fun e => (f.1, e)).flatten

/-- All candidate entries of a run in processing order. -/
def candidateEntries (feeds : List (String × FetchOutcome)) : List FeedEntry :=
  (feeds.map fun f => feedEntries f.2).flatten

/-- `insertEntry` acting on a tagged candidate. -/
def insertTagged (appId : String) (st : List String × List AppStoreReview)
    (t : String × FeedEntry) : List String × List AppStoreReview :=
  insertEntry appId t.1 st t.2

/-- The dedup fingerprint recomputed from a constructed review (the review
stores the content, author and date the fingerprint was built from). -/
def reviewFp (r : AppStoreReview) : String :=
  r.content.take 50 ++ "_" ++ r.author ++ "_" ++ r.date

/-- The three-part composite key named by the specification: (first 50
characters of content, author name, update timestamp) as a genuine
triple. -/
def tripleFp (e : FeedEntry) : String × String × String :=
  ((e.content.getD "").take 50, e.author.getD "", e.updated.getD "")

/-- Invariant of the dedup loop relating the state to the prefix of tagged
candidates already processed: the seen-set holds exactly the fingerprints
of the prefix, the accumulated reviews have pairwise distinct fingerprints
covering exactly those of the prefix, every accumulated review copies the
fields of the first candidate bearing its fingerprint, and the review at
position `i` carries `i` in its synthetic id. -/
def insertLoopInv (appId : String) (pref : List (String × FeedEntry))
    (st : List String × List AppStoreReview) : Prop :=
  (∀ s, s ∈ st.1 ↔ s ∈ pref.map fun t => uniqueId t.2) ∧
  (st.2.map reviewFp).Nodup ∧
  (∀ s, s ∈ st.2.map reviewFp ↔ s ∈ pref.map fun t => uniqueId t.2) ∧
  (∀ r ∈ st.2, ∃ t, pref.find? (fun t => uniqueId t.2 == reviewFp r) = some t ∧
    r.content = t.2.content.getD "" ∧ r.author = t.2.author.getD "" ∧
    r.date = t.2.updated.getD "" ∧ r.title = t.2.title.getD "" ∧
    r.rating = jsParseInt (jsOrS (t.2.rating.getD "") "0") ∧
    r.helpful_votes = jsParseInt (jsOrS (t.2.voteSum.getD "") "0") ∧
    r.app_id = appId) ∧
  (∀ (i : Nat) (hi : i < st.2.length), ∃ sb, (st.2[i]).id =
    "appstore_" ++ appId ++ "_" ++ sb ++ "_" ++ toString i)

/-! ### Concrete inputs used by counterexamples and witnesses -/

/-- A feed entry with every optional field absent. -/
def blankEntry : FeedEntry :=
  ⟨none, none, none, none, none, none⟩

/-- First colliding candidate: content `"a_b"`, empty author and date. -/
def collideE1 : FeedEntry :=
  ⟨some "a_b", some "", some "", none, none, none⟩

/-- Second colliding candidate: content `"a"`, author `"b_"`, empty date —
a different composite triple whose underscore-joined string coincides with
that of `collideE1`. -/
def collideE2 : FeedEntry :=
  ⟨some "a", some "b_", some "", none, none, none⟩

/-- One successful feed whose candidates are the two colliding entries
(the leading entry is the app-metadata slot that `slice(1, 50)` drops). -/
def collideFeeds : List (String × FetchOutcome) :=
  [("mostRecent", .ok [blankEntry, collideE1, collideE2])]

/-- A candidate whose rating label is present but not parseable as a
number. -/
def badRatingEntry : FeedEntry :=
  ⟨some "great app", some "bob", some "2020-01-01", some "unrated", some "t", none⟩

/-- One successful feed delivering only `badRatingEntry`. -/
def badRatingFeeds : List (String × FetchOutcome) :=
  [("mostRecent", .ok [blankEntry, badRatingEntry])]

/-- Three distinct candidates with dates of pairwise different lengths,
preceded by the dropped metadata slot. -/
def wEntries : List FeedEntry :=
  [blankEntry,
   ⟨some "one", some "ann", some "d1", some "5", some "t1", some "2"⟩,
   ⟨some "two", some "ben", some "date22", some "4", some "t2", some "0"⟩,
   ⟨some "three", some "cat", some "longdate333", some "3", some "t3", some "1"⟩]

/-- Feed assignment used by witnesses: the most-recent feed succeeds with
`wEntries`, the other three sort orders fail. -/
def wOutcome (s : String) : FetchOutcome :=
  if s = "mostRecent" then .ok wEntries else .fail

/-- Date parser used by witnesses: the length of the date string. -/
def wParse (s : String) : Int :=
  (s.length : Int)

/-- Whether a per-sort-order request succeeded. -/
def feedOk : String × FetchOutcome → Bool
  | (_, .fail) => false
  | (_, .ok _) => true

/-! ## Helper lemmas -/

/-- Folding the per-feed loop ignores failed feeds: the fold equals the
fold over the successful feeds only. -/
theorem foldl_runFeed_skip (appId : String) :
    ∀ (feeds : List (String × FetchOutcome))
      (st : List String × List AppStoreReview),
      feeds.foldl (runFeed appId) st =
        (feeds.filter feedOk).foldl (runFeed appId) st
  | [], _ => rfl
  | ⟨sb, oc⟩ :: fs, st => by
    cases oc with
    | fail =>
      show fs.foldl (runFeed appId) (runFeed appId st (sb, .fail)) = _
      rw [show runFeed appId st (sb, .fail) = st from rfl]
      rw [foldl_runFeed_skip appId fs st]
      rfl
    | ok es =>
      show fs.foldl (runFeed appId) (runFeed appId st (sb, .ok es)) = _
      rw [foldl_runFeed_skip appId fs (runFeed appId st (sb, .ok es))]
      rfl

/-- A run in which every feed failed accumulates nothing. -/
theorem collectReviews_all_fail (appId : String)
    (feeds : List (String × FetchOutcome))
    (h : ∀ f ∈ feeds, f.2 = FetchOutcome.fail) :
    collectReviews appId feeds = [] := by
  unfold collectReviews
  rw [foldl_runFeed_skip]
  have hnil : feeds.filter feedOk = [] := by
    rw [List.filter_eq_nil_iff]
    intro f hf
    have := h f hf
    obtain ⟨s, oc⟩ := f
    simp only at this
    rw [this]
    simp [feedOk]
  rw [hnil]
  rfl

/-- The whole multi-sort call returns the empty list when all four
requests fail. -/
theorem getReviewsFull_all_fail (pd : String → Int) (appId : String)
    (limit : Nat) (oc : String → FetchOutcome) (h : ∀ s, oc s = .fail) :
    getReviewsFull pd appId limit oc = [] := by
  unfold getReviewsFull getReviews
  rw [collectReviews_all_fail]
  · simp
  · intro f hf
    obtain ⟨s, -, rfl⟩ := List.mem_map.mp hf
    exact h s

/-! ## Claims -/

/-- C3: `getReviews` of both source clients never throws (it is a total
function of the upstream outcomes): the multi-sort variant returns the
empty list when every sort-order request fails, the single-feed variant
returns the empty list on upstream failure, and a failed sort-order feed
is skipped — the run equals the run over the successful feeds alone, whose
reviews are still deduplicated and returned. -/
theorem spec_c3_reviews_never_throw (pd : String → Int) (now appId : String)
    (limit : Nat) (oc : String → FetchOutcome)
    (feeds : List (String × FetchOutcome)) :
    ((∀ s, oc s = .fail) → getReviewsFull pd appId limit oc = []) ∧
    asoGetReviews now appId .fail = [] ∧
    collectReviews appId feeds =
      collectReviews appId (feeds.filter feedOk) ∧
    getReviews pd appId limit feeds =
      getReviews pd appId limit (feeds.filter feedOk) := by
  refine ⟨fun h => getReviewsFull_all_fail pd appId limit oc h, rfl, ?_, ?_⟩
  · unfold collectReviews
    rw [foldl_runFeed_skip]
  · unfold getReviews collectReviews
    rw [foldl_runFeed_skip]

/-- C3 witness: at a concrete input, total failure yields the empty list
and a partially failing run equals the run over its successful feeds. -/
theorem spec_c3_witness :
    getReviewsFull wParse "1" 3 (fun _ => .fail) = [] :=
  (spec_c3_reviews_never_throw wParse "t" "1" 3 (fun _ => .fail) []).1
    (fun _ => rfl)

/-- C4: the combined `getAppWithReviews` of either service rejects exactly
when the metadata fetch rejects, wrapping the metadata error; when the
metadata fetch succeeds, the call succeeds even if every review request
failed, in which case the review list degrades to empty. -/
theorem spec_c4_combined_fails_iff_metadata (pd : String → Int)
    (now appId : String) (limit : Nat) (mOut : MetaOutcome)
    (oc : String → FetchOutcome) (aoc : AsoFetchOutcome) :
    ((getAppWithReviews pd appId limit mOut oc).isErr = mOut.isErr) ∧
    (∀ e, mOut = .err e → getAppWithReviews pd appId limit mOut oc =
      .err ⟨"Failed to get app with reviews", some e⟩) ∧
    (∀ m, mOut = .ok m → getAppWithReviews pd appId limit mOut oc =
      .ok m (getReviewsFull pd appId limit oc)) ∧
    (∀ m, mOut = .ok m → (∀ s, oc s = .fail) →
      getAppWithReviews pd appId limit mOut oc = .ok m []) ∧
    ((asoGetAppWithReviews now appId mOut aoc).isErr = mOut.isErr) ∧
    (∀ e, mOut = .err e → asoGetAppWithReviews now appId mOut aoc =
      .err ⟨"Failed to get app with reviews from ASO Market", some e⟩) ∧
    (∀ m, mOut = .ok m → asoGetAppWithReviews now appId mOut aoc =
      .ok m (asoGetReviews now appId aoc)) ∧
    (∀ m, mOut = .ok m → aoc = .fail →
      asoGetAppWithReviews now appId mOut aoc = .ok m []) := by
  refine ⟨?_, ?_, ?_, ?_, ?_, ?_, ?_, ?_⟩
  · cases mOut <;> rfl
  · rintro e rfl; rfl
  · rintro m rfl; rfl
  · rintro m rfl h
    show CombinedOutcome.ok m (getReviewsFull pd appId limit oc) = _
    rw [getReviewsFull_all_fail pd appId limit oc h]
  · cases mOut <;> rfl
  · rintro e rfl; rfl
  · rintro m rfl; rfl
  · rintro m rfl rfl; rfl

/-- C4 witness: at a concrete input, a metadata failure makes the combined
call reject with the wrapped error, and a metadata success with failing
review feeds yields the metadata next to an empty review list. -/
theorem spec_c4_witness :
    getAppWithReviews wParse "1" 3 (.err "boom") (fun _ => .fail) =
      .err ⟨"Failed to get app with reviews", some "boom"⟩ ∧
    asoGetAppWithReviews "t" "1"
      (.ok ⟨"1", "A", 0, 0, 0, "u", "t"⟩) .fail =
      .ok ⟨"1", "A", 0, 0, 0, "u", "t"⟩ [] :=
  ⟨(spec_c4_combined_fails_iff_metadata wParse "t" "1" 3 (.err "boom")
      (fun _ => .fail) .fail).2.1 "boom" rfl,
   (spec_c4_combined_fails_iff_metadata wParse "t" "1" 3
      (.ok ⟨"1", "A", 0, 0, 0, "u", "t"⟩) (fun _ => .fail) .fail).2.2.2.2.2.2.2
      ⟨"1", "A", 0, 0, 0, "u", "t"⟩ rfl rfl⟩

/-- C8 counterexample: the claim says the 500 envelope never exposes the
original error, but `handleError` places the original error message in the
envelope `message` field, which the catch branch returns to the caller. -/
theorem spec_c8_counterexample :
    (singleAppCatch (.jsError "ASO Market API returned 500: boom") "123" "t").1 = 500 ∧
    (singleAppCatch (.jsError "ASO Market API returned 500: boom") "123" "t").2.message =
      some "ASO Market API returned 500: boom" := by
  exact ⟨rfl, rfl⟩

/-- C8 as amended: every uncaught error yields HTTP 500 with a generic
`error` field and the original error is logged, but the envelope `message`
field carries the original error message when the thrown value is an
`Error` (and a generic placeholder otherwise). -/
theorem spec_c8_internal_error_envelope (e : JsThrown) (appId now : String) :
    (singleAppCatch e appId now).1 = 500 ∧
    ((singleAppCatch e appId now).2.error = "Internal Server Error" ∨
      (singleAppCatch e appId now).2.error = "Unknown Error") ∧
    (∀ m, e = .jsError m → (singleAppCatch e appId now).2.message = some m) ∧
    (e = .nonError →
      (singleAppCatch e appId now).2.message = some "An unexpected error occurred") := by
  cases e with
  | jsError m =>
    refine ⟨rfl, Or.inl rfl, ?_, ?_⟩
    · rintro m2 h
      cases h
      rfl
    · intro h
      cases h
  | nonError =>
    refine ⟨rfl, Or.inr rfl, ?_, fun _ => rfl⟩
    rintro m2 h
    cases h

/-- C8 witness: the amended claim evaluated at a concrete thrown error. -/
theorem spec_c8_witness :
    (singleAppCatch (.jsError "boom") "42" "t").2.message = some "boom" :=
  (spec_c8_internal_error_envelope (.jsError "boom") "42" "t").2.2.1 "boom" rfl

set_option maxRecDepth 4000 in
/-- C9 counterexample: a present but unparseable rating label produces a
review whose rating is `NaN` (modelled `none`), not the claimed 0: on a
feed whose only candidate carries the rating label `"unrated"`, the
aggregated result's single review has rating `none`. -/
theorem spec_c9_counterexample :
    (collectReviews "1" badRatingFeeds).map (fun r => r.rating) = [none] ∧
    jsParseInt "unrated" = none ∧
    ([none] : List (Option Int)) ≠ [some 0] := by
  exact ⟨rfl, rfl, by decide⟩

/-- C9 as amended: an absent or empty rating label defaults to 0 in the
multi-sort variant, and an absent rating defaults to 0 in the single-feed
variant; a present non-empty label is parsed with JavaScript `parseInt`
semantics, which yield `NaN` (`none`) instead of 0 when the label has no
leading integer. -/
theorem spec_c9_rating_default (appId sortBy : String) (n : Nat)
    (e : FeedEntry) :
    ((e.rating = none ∨ e.rating = some "") →
      (mkAppStoreReview appId sortBy n e).rating = some 0) ∧
    (∀ s, e.rating = some s → s ≠ "" →
      (mkAppStoreReview appId sortBy n e).rating = jsParseInt s) ∧
    (∀ now i r, AsoRawReview.rating r = none →
      (mkAsoReview now appId i r).rating = some 0) := by
  refine ⟨?_, ?_, ?_⟩
  · rintro (h | h) <;> simp [mkAppStoreReview, h, jsOrS, jsParseInt, digitsVal]
  · intro s hs hne
    simp [mkAppStoreReview, hs, jsOrS, hne]
  · intro now i r h
    simp [mkAsoReview, h]

/-- C9 witness: the amended claim evaluated at a concrete entry with an
absent rating label. -/
theorem spec_c9_witness :
    (mkAppStoreReview "1" "mostRecent" 0 blankEntry).rating = some 0 :=
  (spec_c9_rating_default "1" "mostRecent" 0 blankEntry).1 (Or.inl rfl)

/-- C10: the GET handler's `include_metadata` flag is true for every
query-parameter value other than the exact string `"false"`; in
particular it is true when the parameter is absent or holds `"0"`,
`"no"` or `"False"`. -/
theorem spec_c10_include_metadata_parse (q : Option String) :
    (q ≠ some "false" → parseIncludeMetadata q = true) ∧
    parseIncludeMetadata (some "false") = false ∧
    parseIncludeMetadata none = true ∧
    parseIncludeMetadata (some "0") = true ∧
    parseIncludeMetadata (some "no") = true ∧
    parseIncludeMetadata (some "False") = true := by
  refine ⟨fun h => ?_, by decide, by decide, by decide, by decide, by decide⟩
  simp [parseIncludeMetadata, h]

/-- C10 witness: the flag parse evaluated at the concrete value `"0"`. -/
theorem spec_c10_witness : parseIncludeMetadata (some "0") = true :=
  (spec_c10_include_metadata_parse (some "0")).1 (by decide)

/-- C6: batch validation yields a non-empty error list — on which the
handler answers 400 with exactly those errors, independently of any
upstream result — exactly when `app_ids` is missing or not an array, or
empty, or longer than 20, or some entry fails `isValidAppId`, or a
supplied limit fails `isValidLimit`; and one error naming each invalid
identifier is accumulated. -/
theorem validateMultiple_nil_iff (d : MultipleAppsRequestData) :
    (validateMultipleAppsRequest d).2 = [] ↔
      (∃ ids, d.app_ids = some ids ∧ ids ≠ [] ∧ ids.length ≤ 20 ∧
        ∀ a ∈ ids, isValidAppId a = true) ∧
      ∀ q, d.limit = some q → isValidLimit q = true := by
  obtain ⟨aids, lim⟩ := d
  have fnone : ∀ a : String,
      ((if isValidAppId a then none else some ("Invalid app_id: " ++ a)) =
        (none : Option String)) ↔ isValidAppId a = true := by
    intro a
    by_cases h : isValidAppId a <;> simp [h]
  cases aids with
  | none => simp [validateMultipleAppsRequest]
  | some ids =>
    have hlimOk : ∀ e1 : List String,
        (match lim with
          | none => ([] : List String)
          | some q => if isValidLimit q then [] else
              ["limit must be a positive integer between 1 and 200"]) = e1 →
        True := fun _ _ => trivial
    cases lim with
    | none =>
      simp only [validateMultipleAppsRequest, List.append_nil]
      split_ifs with h0 h20
      · constructor
        · intro h
          simp at h
        · rintro ⟨⟨ids2, heq, hne2, -, -⟩, -⟩
          cases heq
          exact absurd (List.length_eq_zero.mp h0) hne2
      · constructor
        · intro h
          simp at h
        · rintro ⟨⟨ids2, heq, -, hle, -⟩, -⟩
          cases heq
          omega
      · rw [List.filterMap_eq_nil_iff]
        constructor
        · intro h
          refine ⟨⟨ids, rfl, ?_, by omega, fun a ha => (fnone a).mp (h a ha)⟩,
            fun q hq => by cases hq⟩
          intro hnil
          rw [hnil] at h0
          exact h0 rfl
        · rintro ⟨⟨ids2, heq, -, -, hall⟩, -⟩
          cases heq
          exact fun a ha => (fnone a).mpr (hall a ha)
    | some q =>
      by_cases hq : isValidLimit q = true
      · simp only [validateMultipleAppsRequest, hq, if_true, List.append_nil]
        split_ifs with h0 h20
        · constructor
          · intro h
            simp at h
          · rintro ⟨⟨ids2, heq, hne2, -, -⟩, -⟩
            cases heq
            exact absurd (List.length_eq_zero.mp h0) hne2
        · constructor
          · intro h
            simp at h
          · rintro ⟨⟨ids2, heq, -, hle, -⟩, -⟩
            cases heq
            omega
        · rw [List.filterMap_eq_nil_iff]
          constructor
          · intro h
            refine ⟨⟨ids, rfl, ?_, by omega, fun a ha => (fnone a).mp (h a ha)⟩,
              fun q2 hq2 => by cases hq2; exact hq⟩
            intro hnil
            rw [hnil] at h0
            exact h0 rfl
          · rintro ⟨⟨ids2, heq, -, -, hall⟩, -⟩
            cases heq
            exact fun a ha => (fnone a).mpr (hall a ha)
      · simp only [validateMultipleAppsRequest, hq, if_false]
        constructor
        · intro h
          rw [List.append_eq_nil] at h
          cases h.2
        · rintro ⟨-, hl⟩
          exact absurd (hl q rfl) hq

/-- C6: batch validation yields a non-empty error list — on which the
handler answers 400 with exactly those errors, independently of any
upstream result — exactly when `app_ids` is missing or not an array, or
empty, or longer than 20, or some entry fails `isValidAppId`, or a
supplied limit fails `isValidLimit`; and one error naming each invalid
identifier is accumulated. -/
theorem spec_c6_batch_validation (d : MultipleAppsRequestData) :
    ((validateMultipleAppsRequest d).2 ≠ [] ↔
      d.app_ids = none ∨
      (∃ ids, d.app_ids = some ids ∧
        (ids = [] ∨ 20 < ids.length ∨ ∃ a ∈ ids, isValidAppId a = false)) ∨
      (∃ q, d.limit = some q ∧ isValidLimit q = false)) ∧
    (∀ ids, d.app_ids = some ids → ids ≠ [] → ids.length ≤ 20 →
      ∀ a ∈ ids, isValidAppId a = false →
        ("Invalid app_id: " ++ a) ∈ (validateMultipleAppsRequest d).2) ∧
    (∀ now im results, (validateMultipleAppsRequest d).2 ≠ [] →
      processMultipleAppsRequest now im d results =
        .badRequest (validateMultipleAppsRequest d).2) ∧
    (∀ now im results, (validateMultipleAppsRequest d).2 = [] →
      ∃ resp, processMultipleAppsRequest now im d results = .ok resp) := by
  refine ⟨?_, ?_, ?_, ?_⟩
  · rw [Ne, validateMultiple_nil_iff]
    constructor
    · intro h
      by_cases ha : ∃ ids, d.app_ids = some ids ∧ ids ≠ [] ∧
          ids.length ≤ 20 ∧ ∀ a ∈ ids, isValidAppId a = true
      · right; right
        by_contra hq
        push_neg at hq
        exact h ⟨ha, fun q hql => by
          have := hq q
          rw [hql] at this
          have h2 := this rfl
          simpa using h2⟩
      · push_neg at ha
        cases hids : d.app_ids with
        | none => exact Or.inl rfl
        | some ids =>
          right; left
          refine ⟨ids, rfl, ?_⟩
          have hids2 := ha ids hids
          by_cases h1 : ids = []
          · exact Or.inl h1
          · by_cases h2 : 20 < ids.length
            · exact Or.inr (Or.inl h2)
            · right; right
              obtain ⟨a, haa, hbad⟩ := hids2 h1 (by omega)
              exact ⟨a, haa, by simpa using hbad⟩
    · rintro (h | ⟨ids, hids, hbad⟩ | ⟨q, hql, hq⟩) ⟨⟨ids2, hids2, hne, hle, hall⟩, hlim⟩
      · rw [h] at hids2
        cases hids2
      · rw [hids] at hids2
        cases hids2
        rcases hbad with h1 | h1 | ⟨a, ha, hinv⟩
        · exact hne h1
        · omega
        · rw [hall a ha] at hinv
          cases hinv
      · rw [hlim q hql] at hq
        cases hq
  · intro ids hids hne hle a ha hbad
    obtain ⟨aids, lim⟩ := d
    simp only at hids
    subst hids
    have hmem : ("Invalid app_id: " ++ a) ∈ ids.filterMap fun x =>
        if isValidAppId x then none else some ("Invalid app_id: " ++ x) := by
      rw [List.mem_filterMap]
      exact ⟨a, ha, by rw [hbad]; simp⟩
    have h0 : ¬ ids.length = 0 := by
      intro h
      exact hne (List.length_eq_zero.mp h)
    have h20 : ¬ ids.length > 20 := by omega
    simp only [validateMultipleAppsRequest, h0, h20, if_false]
    exact List.mem_append_left _ hmem
  · intro now im results h
    have hb : (validateMultipleAppsRequest d).1 = false := by
      have key : (validateMultipleAppsRequest d).1 =
          (validateMultipleAppsRequest d).2.isEmpty := rfl
      rw [key]
      simpa [List.isEmpty_iff] using h
    simp only [processMultipleAppsRequest, hb, Bool.false_eq_true, if_false]
  · intro now im results h
    have hb : (validateMultipleAppsRequest d).1 = true := by
      have key : (validateMultipleAppsRequest d).1 =
          (validateMultipleAppsRequest d).2.isEmpty := rfl
      rw [key, h]
      rfl
    cases hrun : processMultipleAppsRequest now im d results with
    | badRequest errs =>
      exfalso
      simp only [processMultipleAppsRequest, hb, if_true] at hrun
      exact BatchOutcome.noConfusion hrun
    | ok resp => exact ⟨resp, rfl⟩

/-- C6 witness: a concrete batch body with one invalid identifier and an
out-of-range limit is rejected with the accumulated error list and the
handler answers 400 with it. -/
theorem spec_c6_witness :
    ("Invalid app_id: 2x") ∈
      (validateMultipleAppsRequest ⟨some ["123", "2x"], some 500⟩).2 ∧
    processMultipleAppsRequest "t" true ⟨some ["123", "2x"], some 500⟩
        (fun _ => ⟨none, []⟩) =
      .badRequest (validateMultipleAppsRequest ⟨some ["123", "2x"], some 500⟩).2 :=
  ⟨(spec_c6_batch_validation ⟨some ["123", "2x"], some 500⟩).2.1
      ["123", "2x"] rfl (by decide) (by decide) "2x" (by decide) (by decide),
   (spec_c6_batch_validation ⟨some ["123", "2x"], some 500⟩).2.2.1
      "t" true (fun _ => ⟨none, []⟩) (by decide)⟩

/-- C7: a batch request that passes validation is answered with one slot
per input identifier in input order, `total_apps` is the number of input
identifiers, and `successful_apps` counts the slots whose review list is
non-empty. -/
theorem spec_c7_batch_response_shape (now : String) (im : Bool)
    (d : MultipleAppsRequestData) (results : String → AppResult)
    (ids : List String) (hids : d.app_ids = some ids)
    (hv : (validateMultipleAppsRequest d).1 = true) :
    ∃ resp, processMultipleAppsRequest now im d results = .ok resp ∧
      resp.apps.map (fun a => a.app_id) = ids.map String.trim ∧
      resp.total_apps = ids.length ∧
      resp.apps.map (fun a => a.reviews) =
        (ids.map fun a => (results a.trim).reviews) ∧
      resp.successful_apps =
        ((ids.map fun a => (results a.trim).reviews).filter
          fun rs => 0 < rs.length).length := by
  cases hrun : processMultipleAppsRequest now im d results with
  | badRequest errs =>
    exfalso
    simp only [processMultipleAppsRequest, hv, if_true] at hrun
    exact BatchOutcome.noConfusion hrun
  | ok resp =>
    simp only [processMultipleAppsRequest, hv, if_true, hids,
      Option.getD_some, BatchOutcome.ok.injEq] at hrun
    refine ⟨resp, rfl, ?_, ?_, ?_, ?_⟩ <;> rw [← hrun]
    · simp [List.map_map, Function.comp]
    · simp
    · simp [List.map_map, Function.comp]
    · simp only [List.filter_map, List.length_map, List.map_map]
      exact congrArg List.length (List.filter_congr fun a _ => rfl)

/-- C7 witness: the batch response shape evaluated at a concrete valid
two-identifier request. -/
theorem spec_c7_witness :
    ∃ resp, processMultipleAppsRequest "t" false ⟨some ["1", "2"], none⟩
        (fun a => ⟨none, if a = "1" then
          [⟨"asomarket_1_0", some 5, "", "c", "b", "d", some 0, "1"⟩] else []⟩) =
        .ok resp ∧
      resp.apps.map (fun a => a.app_id) = ["1", "2"].map String.trim ∧
      resp.total_apps = (["1", "2"] : List String).length ∧
      resp.apps.map (fun a => a.reviews) =
        ((["1", "2"] : List String).map fun a =>
          ((fun a => AppResult.mk none (if a = "1" then
            [⟨"asomarket_1_0", some 5, "", "c", "b", "d", some 0, "1"⟩] else []))
            a.trim).reviews) ∧
      resp.successful_apps =
        (((["1", "2"] : List String).map fun a =>
          ((fun a => AppResult.mk none (if a = "1" then
            [⟨"asomarket_1_0", some 5, "", "c", "b", "d", some 0, "1"⟩] else []))
            a.trim).reviews).filter fun rs => 0 < rs.length).length :=
  spec_c7_batch_response_shape "t" false ⟨some ["1", "2"], none⟩
    (fun a => ⟨none, if a = "1" then
      [⟨"asomarket_1_0", some 5, "", "c", "b", "d", some 0, "1"⟩] else []⟩)
    ["1", "2"] rfl (by decide)

/-! ## Decimal representation of `Nat`: digit characters and injectivity.
These facts about the core printer back the uniqueness of the synthetic
review identifiers, which embed a running counter via `toString`. -/

/-- The fuel-indexed digit printer only prepends to its accumulator. -/
theorem toDigitsCore_ten_append (f : Nat) :
    ∀ (n : Nat) (ds : List Char),
      Nat.toDigitsCore 10 f n ds = Nat.toDigitsCore 10 f n [] ++ ds := by
  induction f with
  | zero => intro n ds; rfl
  | succ f ih =>
    intro n ds
    by_cases h : n / 10 = 0
    · simp [Nat.toDigitsCore, h]
    · simp only [Nat.toDigitsCore, h, if_false]
      rw [ih (n / 10) (Nat.digitChar (n % 10) :: ds),
        ih (n / 10) [Nat.digitChar (n % 10)], List.append_assoc]
      rfl

/-- A digit value below ten prints as a decimal digit character. -/
theorem digitChar_isDigit (m : Nat) (h : m < 10) :
    (Nat.digitChar m).isDigit = true := by
  interval_cases m <;> decide

/-- The printed digit character decodes back to its value. -/
theorem digitChar_sub48 (m : Nat) (h : m < 10) :
    (Nat.digitChar m).toNat - 48 = m := by
  interval_cases m <;> decide

/-- Every character produced by the base-ten digit printer is a decimal
digit. -/
theorem toDigitsCore_ten_digits (f : Nat) :
    ∀ (n : Nat) (ds : List Char), (∀ c ∈ ds, c.isDigit = true) →
      ∀ c ∈ Nat.toDigitsCore 10 f n ds, c.isDigit = true := by
  induction f with
  | zero => intro n ds hds; exact hds
  | succ f ih =>
    intro n ds hds
    have hdig : ∀ c ∈ Nat.digitChar (n % 10) :: ds, c.isDigit = true := by
      intro c hc
      rcases List.mem_cons.mp hc with rfl | hc
      · exact digitChar_isDigit _ (Nat.mod_lt n (by norm_num))
      · exact hds c hc
    by_cases h : n / 10 = 0
    · simpa [Nat.toDigitsCore, h] using hdig
    · simpa only [Nat.toDigitsCore, h, if_false] using ih (n / 10) _ hdig

/-- Appending one digit multiplies the decoded value by ten and adds the
digit. -/
theorem digitsVal_append (l : List Char) (c : Char) :
    digitsVal (l ++ [c]) = 10 * digitsVal l + (c.toNat - 48) := by
  unfold digitsVal
  rw [List.foldl_append]
  rfl

/-- With enough fuel the digit printer is decoded by `digitsVal`. -/
theorem toDigitsCore_ten_val (f : Nat) :
    ∀ n, n < 10 ^ f → digitsVal (Nat.toDigitsCore 10 f n []) = n := by
  induction f with
  | zero =>
    intro n hn
    interval_cases n
    rfl
  | succ f ih =>
    intro n hn
    by_cases h : n / 10 = 0
    · have hlt : n < 10 := by omega
      simp only [Nat.toDigitsCore, h, if_true]
      show digitsVal [Nat.digitChar (n % 10)] = n
      have : digitsVal [Nat.digitChar (n % 10)] =
          (Nat.digitChar (n % 10)).toNat - 48 := by
        unfold digitsVal
        simp
      rw [this, digitChar_sub48 _ (Nat.mod_lt n (by norm_num)),
        Nat.mod_eq_of_lt hlt]
    · simp only [Nat.toDigitsCore, h, if_false]
      rw [toDigitsCore_ten_append, digitsVal_append,
        ih (n / 10) (by rw [pow_succ] at hn; omega),
        digitChar_sub48 _ (Nat.mod_lt n (by norm_num))]
      omega

/-- Every character of the decimal representation of a natural number is
a decimal digit. -/
theorem repr_data_digits (n : Nat) :
    ∀ c ∈ (Nat.repr n).data, c.isDigit = true := by
  intro c hc
  exact toDigitsCore_ten_digits (n + 1) n [] (by intro c hc; cases hc) c hc

/-- No character of the decimal representation of a natural number is an
underscore. -/
theorem repr_no_underscore (n : Nat) :
    ∀ c ∈ (Nat.repr n).data, (c == '_') = false := by
  intro c hc
  have hd := repr_data_digits n c hc
  rw [beq_eq_false_iff_ne]
  rintro rfl
  exact absurd hd (by decide)

/-- The decimal representation is injective at the character-list level. -/
theorem repr_data_inj (m n : Nat)
    (h : (Nat.repr m).data = (Nat.repr n).data) : m = n := by
  have hm : m < 10 ^ (m + 1) :=
    lt_of_lt_of_le (Nat.lt_pow_self (by norm_num) m)
      (Nat.pow_le_pow_right (by norm_num) (Nat.le_succ m))
  have hn : n < 10 ^ (n + 1) :=
    lt_of_lt_of_le (Nat.lt_pow_self (by norm_num) n)
      (Nat.pow_le_pow_right (by norm_num) (Nat.le_succ n))
  have hv := congrArg digitsVal h
  rwa [show (Nat.repr m).data = Nat.toDigitsCore 10 (m + 1) m [] from rfl,
    show (Nat.repr n).data = Nat.toDigitsCore 10 (n + 1) n [] from rfl,
    toDigitsCore_ten_val (m + 1) m hm, toDigitsCore_ten_val (n + 1) n hn] at hv

/-! ## Splitting a string at its final underscore -/

/-- `takeWhile` keeps exactly the prefix before the first failing
element. -/
theorem takeWhile_append_sep (p : Char → Bool) :
    ∀ (u : List Char) (w : Char) (v : List Char),
      (∀ c ∈ u, p c = true) → p w = false →
      List.takeWhile p (u ++ w :: v) = u := by
  intro u
  induction u with
  | nil =>
    intro w v _ hw
    simp [List.takeWhile_cons, hw]
  | cons c u ih =>
    intro w v hu hw
    have hc : p c = true := hu c (List.mem_cons_self c u)
    simp only [List.cons_append, List.takeWhile_cons, hc, if_true]
    rw [ih w v (fun x hx => hu x (List.mem_cons_of_mem c hx)) hw]

/-- Two decompositions of one character list around an underscore whose
tails contain no underscore have equal tails. -/
theorem last_sep_eq (a b x y : List Char)
    (hx : ∀ c ∈ x, (c == '_') = false) (hy : ∀ c ∈ y, (c == '_') = false)
    (h : a ++ '_' :: x = b ++ '_' :: y) : x = y := by
  have hrev := congrArg List.reverse h
  simp only [List.reverse_append, List.reverse_cons, List.append_assoc,
    List.singleton_append] at hrev
  have hx2 : ∀ c ∈ x.reverse, (!(c == '_')) = true := by
    intro c hc
    rw [hx c (List.mem_reverse.mp hc)]
    rfl
  have hy2 : ∀ c ∈ y.reverse, (!(c == '_')) = true := by
    intro c hc
    rw [hy c (List.mem_reverse.mp hc)]
    rfl
  have h1 := takeWhile_append_sep (fun c => !(c == '_')) x.reverse '_'
    a.reverse hx2 (by decide)
  have h2 := takeWhile_append_sep (fun c => !(c == '_')) y.reverse '_'
    b.reverse hy2 (by decide)
  have : x.reverse = y.reverse := by
    rw [← h1, ← h2, hrev]
  exact List.reverse_injective this

/-- A string of the form `s ++ "_" ++ toString n` determines `n`: the
decimal tail after the final underscore is unambiguous. -/
theorem append_repr_inj (s1 s2 : String) (n1 n2 : Nat)
    (h : s1 ++ "_" ++ Nat.repr n1 = s2 ++ "_" ++ Nat.repr n2) : n1 = n2 := by
  have hd := congrArg String.data h
  simp only [String.data_append] at hd
  rw [List.append_assoc, List.append_assoc, List.singleton_append,
    List.singleton_append] at hd
  exact repr_data_inj n1 n2
    (last_sep_eq s1.data s2.data (Nat.repr n1).data (Nat.repr n2).data
      (repr_no_underscore n1) (repr_no_underscore n2) hd)

/-! ## The dedup-loop invariant -/

/-- A constructed review recomputes the fingerprint of its entry. -/
theorem reviewFp_mk (appId sortBy : String) (n : Nat) (e : FeedEntry) :
    reviewFp (mkAppStoreReview appId sortBy n e) = uniqueId e := rfl

/-- The per-feed loop is the tagged-candidate fold. -/
theorem runFeed_eq (appId : String) (st : List String × List AppStoreReview)
    (f : String × FetchOutcome) :
    runFeed appId st f =
      ((feedEntries f.2).map fun e => (f.1, e)).foldl (insertTagged appId) st := by
  obtain ⟨sb, oc⟩ := f
  cases oc with
  | fail => rfl
  | ok es =>
    show ((es.drop 1).take 49).foldl (insertEntry appId sb) st = _
    rw [List.foldl_map]
    rfl

/-- The whole run is a single fold over the tagged candidates. -/
theorem collectReviews_eq_tagged (appId : String)
    (feeds : List (String × FetchOutcome)) :
    feeds.foldl (runFeed appId) ([], []) =
      (taggedEntries feeds).foldl (insertTagged appId) ([], []) := by
  unfold taggedEntries
  rw [List.foldl_flatten, List.foldl_map]
  have hfun : (fun (st : List String × List AppStoreReview)
      (f : String × FetchOutcome) =>
        ((feedEntries f.2).map fun e => (f.1, e)).foldl (insertTagged appId) st) =
      runFeed appId := by
    funext st f
    rw [runFeed_eq]
  rw [hfun]

/-- The untagged candidates are the tagged candidates without their
tags. -/
theorem candidateEntries_eq (feeds : List (String × FetchOutcome)) :
    candidateEntries feeds = (taggedEntries feeds).map Prod.snd := by
  unfold candidateEntries taggedEntries
  rw [List.map_flatten, List.map_map]
  congr 1
  apply List.map_congr_left
  intro f _
  show feedEntries f.2 = ((feedEntries f.2).map fun e => (f.1, e)).map Prod.snd
  rw [List.map_map]
  simp [Function.comp]

/-- The invariant holds of the initial empty state. -/
theorem insertLoopInv_nil (appId : String) :
    insertLoopInv appId [] ([], []) := by
  refine ⟨by simp, by simp, by simp, by simp, ?_⟩
  intro i hi
  simp at hi

set_option maxRecDepth 4000 in
set_option maxHeartbeats 1600000 in
/-- One loop step preserves the invariant, extending the processed prefix
by the candidate just examined. -/
theorem insertLoopInv_step (appId : String)
    (pref : List (String × FeedEntry)) (st : List String × List AppStoreReview)
    (t : String × FeedEntry) (h : insertLoopInv appId pref st) :
    insertLoopInv appId (pref ++ [t]) (insertTagged appId st t) := by
  obtain ⟨seen, acc⟩ := st
  obtain ⟨sb, e⟩ := t
  obtain ⟨hSeen, hNodup, hCover, hFirst, hIds⟩ := h
  by_cases hmem : uniqueId e ∈ seen
  · have hstate : insertTagged appId (seen, acc) (sb, e) = (seen, acc) := by
      simp only [insertTagged, insertEntry]
      rw [if_pos hmem]
    rw [hstate]
    have huid : uniqueId e ∈ pref.map fun t => uniqueId t.2 := (hSeen _).mp hmem
    refine ⟨?_, hNodup, ?_, ?_, hIds⟩
    · intro s
      rw [List.map_append, List.mem_append]
      constructor
      · intro hs
        exact Or.inl ((hSeen s).mp hs)
      · rintro (hs | hs)
        · exact (hSeen s).mpr hs
        · simp only [List.map_cons, List.map_nil, List.mem_singleton] at hs
          rw [hs]
          exact hmem
    · intro s
      rw [List.map_append, List.mem_append]
      constructor
      · intro hs
        exact Or.inl ((hCover s).mp hs)
      · rintro (hs | hs)
        · exact (hCover s).mpr hs
        · simp only [List.map_cons, List.map_nil, List.mem_singleton] at hs
          rw [hs]
          exact (hCover _).mpr huid
    · intro r hr
      obtain ⟨t0, ht0, hfields⟩ := hFirst r hr
      refine ⟨t0, ?_, hfields⟩
      rw [List.find?_append, ht0]
      rfl
  · have hstate : insertTagged appId (seen, acc) (sb, e) =
        (uniqueId e :: seen,
          acc ++ [mkAppStoreReview appId sb acc.length e]) := by
      simp only [insertTagged, insertEntry]
      rw [if_neg hmem]
    rw [hstate]
    have huid : uniqueId e ∉ pref.map fun t => uniqueId t.2 :=
      fun hc => hmem ((hSeen _).mpr hc)
    have hufp : uniqueId e ∉ acc.map reviewFp :=
      fun hc => huid ((hCover _).mp hc)
    have hfind : pref.find? (fun t => uniqueId t.2 == uniqueId e) = none := by
      rw [List.find?_eq_none]
      intro t0 ht0 hbeq
      exact huid (List.mem_map.mpr ⟨t0, ht0, eq_of_beq hbeq⟩)
    refine ⟨?_, ?_, ?_, ?_, ?_⟩
    · intro s
      rw [List.map_append, List.mem_append, List.mem_cons]
      constructor
      · rintro (hs | hs)
        · right
          simp [hs]
        · exact Or.inl ((hSeen s).mp hs)
      · rintro (hs | hs)
        · exact Or.inr ((hSeen s).mpr hs)
        · simp only [List.map_cons, List.map_nil, List.mem_singleton] at hs
          exact Or.inl hs
    · rw [List.map_append]
      rw [List.nodup_append]
      refine ⟨hNodup, List.nodup_singleton _, ?_⟩
      intro s hs
      simp only [List.map_cons, List.map_nil, List.mem_singleton,
        reviewFp_mk]
      intro hc
      rw [hc] at hs
      exact hufp hs
    · intro s
      rw [List.map_append, List.mem_append, List.map_append, List.mem_append]
      simp only [List.map_cons, List.map_nil, reviewFp_mk]
      constructor
      · rintro (hs | hs)
        · exact Or.inl ((hCover s).mp hs)
        · exact Or.inr hs
      · rintro (hs | hs)
        · exact Or.inl ((hCover s).mpr hs)
        · exact Or.inr hs
    · intro r hr
      rw [List.mem_append] at hr
      rcases hr with hr | hr
      · obtain ⟨t0, ht0, hfields⟩ := hFirst r hr
        refine ⟨t0, ?_, hfields⟩
        rw [List.find?_append, ht0]
        rfl
      · simp only [List.mem_singleton] at hr
        rw [hr]
        refine ⟨(sb, e), ?_, rfl, rfl, rfl, rfl, rfl, rfl, rfl⟩
        rw [reviewFp_mk, List.find?_append, hfind]
        simp only [Option.none_or]
        simp
    · intro i hi
      rw [List.length_append, List.length_singleton] at hi
      by_cases hlt : i < acc.length
      · obtain ⟨sb2, hid⟩ := hIds i hlt
        refine ⟨sb2, ?_⟩
        rw [List.getElem_append_left hlt]
        exact hid
      · have hieq : i = acc.length := by omega
        subst hieq
        refine ⟨sb, ?_⟩
        rw [List.getElem_append_right (Nat.le_refl _)]
        simp
        rfl

/-- Folding any block of tagged candidates preserves the invariant. -/
theorem insertLoopInv_fold (appId : String) :
    ∀ (ts pref : List (String × FeedEntry))
      (st : List String × List AppStoreReview),
      insertLoopInv appId pref st →
      insertLoopInv appId (pref ++ ts) (ts.foldl (insertTagged appId) st)
  | [], pref, st, h => by
    rw [List.append_nil]
    exact h
  | t :: ts, pref, st, h => by
    have hstep := insertLoopInv_step appId pref st t h
    have hrec := insertLoopInv_fold appId ts (pref ++ [t])
      (insertTagged appId st t) hstep
    rw [List.append_assoc] at hrec
    exact hrec

/-- The invariant at the end of a whole run. -/
theorem collectReviews_inv (appId : String)
    (feeds : List (String × FetchOutcome)) :
    insertLoopInv appId (taggedEntries feeds)
      ((taggedEntries feeds).foldl (insertTagged appId) ([], [])) := by
  have := insertLoopInv_fold appId (taggedEntries feeds) [] ([], [])
    (insertLoopInv_nil appId)
  rwa [List.nil_append] at this

/-- The run's reviews and candidate prefix satisfy every component of the
invariant (packaged form over `collectReviews`). -/
theorem collectReviews_spec (appId : String)
    (feeds : List (String × FetchOutcome)) :
    insertLoopInv appId (taggedEntries feeds)
      (((taggedEntries feeds).foldl (insertTagged appId) ([], [])).1,
        collectReviews appId feeds) := by
  have h := collectReviews_inv appId feeds
  unfold collectReviews
  rw [collectReviews_eq_tagged]
  exact h

/-- No two reviews of one multi-sort run share a fingerprint. -/
theorem collectReviews_fp_nodup (appId : String)
    (feeds : List (String × FetchOutcome)) :
    ((collectReviews appId feeds).map reviewFp).Nodup :=
  (collectReviews_spec appId feeds).2.1

/-- Every candidate's fingerprint is represented in the run's output. -/
theorem collectReviews_fp_cover (appId : String)
    (feeds : List (String × FetchOutcome)) :
    ∀ e ∈ candidateEntries feeds,
      uniqueId e ∈ (collectReviews appId feeds).map reviewFp := by
  intro e he
  obtain ⟨-, -, hCover, -, -⟩ := collectReviews_spec appId feeds
  apply (hCover _).mpr
  rw [candidateEntries_eq] at he
  obtain ⟨t, ht, rfl⟩ := List.mem_map.mp he
  exact List.mem_map.mpr ⟨t, ht, rfl⟩

/-- Every review of a run copies the fields of the first candidate bearing
its fingerprint. -/
theorem collectReviews_first_wins (appId : String)
    (feeds : List (String × FetchOutcome)) :
    ∀ r ∈ collectReviews appId feeds, ∃ e,
      (candidateEntries feeds).find? (fun x => uniqueId x == reviewFp r) = some e ∧
      r.content = e.content.getD "" ∧ r.author = e.author.getD "" ∧
      r.date = e.updated.getD "" ∧ r.title = e.title.getD "" ∧
      r.rating = jsParseInt (jsOrS (e.rating.getD "") "0") ∧
      r.helpful_votes = jsParseInt (jsOrS (e.voteSum.getD "") "0") := by
  intro r hr
  obtain ⟨-, -, -, hFirst, -⟩ := collectReviews_spec appId feeds
  obtain ⟨t, ht, hfields⟩ := hFirst r hr
  refine ⟨t.2, ?_, hfields.1, hfields.2.1, hfields.2.2.1, hfields.2.2.2.1,
    hfields.2.2.2.2.1, hfields.2.2.2.2.2.1⟩
  rw [candidateEntries_eq, List.find?_map]
  have hcomp : ((fun x => uniqueId x == reviewFp r) ∘ Prod.snd :
      String × FeedEntry → Bool) = fun t => uniqueId t.2 == reviewFp r := rfl
  rw [hcomp, ht]
  rfl

/-- Every review of a run carries its insertion index in its synthetic
identifier. -/
theorem collectReviews_id_shape (appId : String)
    (feeds : List (String × FetchOutcome)) :
    ∀ (i : Nat) (hi : i < (collectReviews appId feeds).length), ∃ sb,
      ((collectReviews appId feeds)[i]).id =
        "appstore_" ++ appId ++ "_" ++ sb ++ "_" ++ toString i :=
  (collectReviews_spec appId feeds).2.2.2.2

/-- The synthetic identifiers of one multi-sort run are pairwise
distinct: the decimal running counter after the final underscore
distinguishes them. -/
theorem collectReviews_ids_nodup (appId : String)
    (feeds : List (String × FetchOutcome)) :
    ((collectReviews appId feeds).map (fun r => r.id)).Nodup := by
  rw [List.Nodup, List.pairwise_iff_getElem]
  intro i j hi hj hij
  rw [List.length_map] at hi hj
  rw [List.getElem_map, List.getElem_map]
  obtain ⟨sb1, h1⟩ := collectReviews_id_shape appId feeds i hi
  obtain ⟨sb2, h2⟩ := collectReviews_id_shape appId feeds j hj
  intro heq
  rw [h1, h2] at heq
  have := append_repr_inj ("appstore_" ++ appId ++ "_" ++ sb1)
    ("appstore_" ++ appId ++ "_" ++ sb2) i j heq
  omega

/-- The synthetic identifiers of one single-feed ASO run are pairwise
distinct, and the one at index `i` embeds `i`. -/
theorem asoGetReviews_ids (now appId : String) (aoc : AsoFetchOutcome) :
    ((asoGetReviews now appId aoc).map (fun r => r.id)).Nodup ∧
    (∀ (i : Nat) (hi : i < (asoGetReviews now appId aoc).length),
      ((asoGetReviews now appId aoc)[i]).id =
        "asomarket_" ++ appId ++ "_" ++ toString i) := by
  cases aoc with
  | fail => exact ⟨List.nodup_nil, fun i hi => by cases hi⟩
  | ok rs =>
    have hshape : ∀ (i : Nat) (hi : i < (asoGetReviews now appId (.ok rs)).length),
        ((asoGetReviews now appId (.ok rs))[i]).id =
          "asomarket_" ++ appId ++ "_" ++ toString i := by
      intro i hi
      show ((rs.enum.map fun p => mkAsoReview now appId p.1 p.2)[i]).id = _
      have hi2 : i < rs.enum.length := by
        simp only [asoGetReviews, List.length_map] at hi
        exact hi
      rw [List.getElem_map, List.getElem_enum]
      rfl
    refine ⟨?_, hshape⟩
    rw [List.Nodup, List.pairwise_iff_getElem]
    intro i j hi hj hij
    rw [List.length_map] at hi hj
    rw [List.getElem_map, List.getElem_map]
    intro heq
    rw [hshape i hi, hshape j hj] at heq
    have := append_repr_inj ("asomarket_" ++ appId)
      ("asomarket_" ++ appId) i j heq
    omega

/-! ## Claims about dedup and identifiers -/

set_option maxRecDepth 8000 in
/-- C1 counterexample: two candidates with distinct three-part composite
keys — content `"a_b"`/author `""` against content `"a"`/author `"b_"` —
collide once joined with underscores, so the aggregated result holds one
review where the claim, which keys dedup by the composite triple, demands
two. -/
theorem spec_c1_counterexample :
    collideE1 ∈ candidateEntries collideFeeds ∧
    collideE2 ∈ candidateEntries collideFeeds ∧
    tripleFp collideE1 ≠ tripleFp collideE2 ∧
    (collectReviews "1" collideFeeds).length = 1 := by
  refine ⟨by decide, by decide, by decide, rfl⟩

/-- C1 as amended: the dedup fingerprint is the single underscore-joined
string `content.substring(0, 50) + "_" + author + "_" + date`; the
aggregated union holds exactly one review per distinct fingerprint string
(fingerprints are pairwise distinct and every candidate's fingerprint is
represented), and the kept review copies the fields of the first candidate
bearing its fingerprint, later colliding candidates being dropped. -/
theorem spec_c1_dedup_by_fingerprint (appId : String)
    (feeds : List (String × FetchOutcome)) :
    ((collectReviews appId feeds).map reviewFp).Nodup ∧
    (∀ e ∈ candidateEntries feeds,
      uniqueId e ∈ (collectReviews appId feeds).map reviewFp) ∧
    (∀ r ∈ collectReviews appId feeds, ∃ e,
      (candidateEntries feeds).find? (fun x => uniqueId x == reviewFp r) = some e ∧
      r.content = e.content.getD "" ∧ r.author = e.author.getD "" ∧
      r.date = e.updated.getD "" ∧ r.title = e.title.getD "" ∧
      r.rating = jsParseInt (jsOrS (e.rating.getD "") "0") ∧
      r.helpful_votes = jsParseInt (jsOrS (e.voteSum.getD "") "0")) :=
  ⟨collectReviews_fp_nodup appId feeds,
   collectReviews_fp_cover appId feeds,
   collectReviews_first_wins appId feeds⟩

set_option maxRecDepth 8000 in
/-- C1 witness: on the colliding feed the amended claim's coverage part
applies, and the single kept review copies the first candidate. -/
theorem spec_c1_witness :
    uniqueId collideE1 ∈ (collectReviews "1" collideFeeds).map reviewFp :=
  (spec_c1_dedup_by_fingerprint "1" collideFeeds).2.1 collideE1 (by decide)

/-- C5: within one aggregation result the synthetic identifiers are
pairwise distinct, in the raw multi-sort union, in the returned
(sorted and truncated) multi-sort list, and in the single-feed variant;
the multi-sort id at insertion index `i` embeds the running count `i`
(`appstore_{appId}_{sortBy}_{i}`) and the single-feed id at index `i`
embeds `i` (`asomarket_{appId}_{i}`). -/
theorem spec_c5_unique_identifiers (pd : String → Int) (now appId : String)
    (L : Nat) (feeds : List (String × FetchOutcome))
    (oc : String → FetchOutcome) (aoc : AsoFetchOutcome) :
    ((collectReviews appId feeds).map (fun r => r.id)).Nodup ∧
    (∀ (i : Nat) (hi : i < (collectReviews appId feeds).length), ∃ sb,
      ((collectReviews appId feeds)[i]).id =
        "appstore_" ++ appId ++ "_" ++ sb ++ "_" ++ toString i) ∧
    ((getReviewsFull pd appId L oc).map (fun r => r.id)).Nodup ∧
    ((asoGetReviews now appId aoc).map (fun r => r.id)).Nodup ∧
    (∀ (i : Nat) (hi : i < (asoGetReviews now appId aoc).length),
      ((asoGetReviews now appId aoc)[i]).id =
        "asomarket_" ++ appId ++ "_" ++ toString i) := by
  refine ⟨collectReviews_ids_nodup appId feeds,
    collectReviews_id_shape appId feeds, ?_,
    (asoGetReviews_ids now appId aoc).1, (asoGetReviews_ids now appId aoc).2⟩
  unfold getReviewsFull getReviews
  rw [List.map_take]
  apply List.Nodup.sublist (List.take_sublist _ _)
  apply (List.Perm.nodup_iff (List.Perm.map _ (List.mergeSort_perm _ _))).mpr
  exact collectReviews_ids_nodup appId _

set_option maxRecDepth 8000 in
/-- C5 witness: identifier distinctness and shape evaluated on a concrete
three-candidate run. -/
theorem spec_c5_witness :
    ∃ sb, ((collectReviews "1"
        (sortOptions.map fun s => (s, wOutcome s)))[1]).id =
      "appstore_" ++ "1" ++ "_" ++ sb ++ "_" ++ toString 1 :=
  (spec_c5_unique_identifiers wParse "t" "1" 2
      (sortOptions.map fun s => (s, wOutcome s)) wOutcome .fail).2.1 1
    (by decide)

/-! ## Sorting lemmas for the aggregated list -/

/-- The descending-by-date comparison is transitive. -/
theorem dateDescLe_trans (pd : String → Int) :
    ∀ a b c, dateDescLe pd a b = true → dateDescLe pd b c = true →
      dateDescLe pd a c = true := by
  intro a b c
  simp only [dateDescLe, decide_eq_true_eq]
  intro h1 h2
  exact le_trans h2 h1

/-- The descending-by-date comparison is total. -/
theorem dateDescLe_total (pd : String → Int) :
    ∀ a b, (dateDescLe pd a b || dateDescLe pd b a) = true := by
  intro a b
  simp only [dateDescLe, Bool.or_eq_true, decide_eq_true_eq]
  exact le_total _ _

/-- Stability of the stable sort, filter form: the reviews sharing one
parsed date keep their relative input order. -/
theorem mergeSort_filter_key (pd : String → Int)
    (u : List AppStoreReview) (k : Int) :
    ((u.mergeSort (dateDescLe pd)).filter fun r => pd r.date == k) =
      u.filter fun r => pd r.date == k := by
  have hpair : (u.filter fun r => pd r.date == k).Pairwise
      (fun a b => dateDescLe pd a b = true) := by
    apply List.pairwise_of_forall_mem_list
    intro a ha b hb
    have hak := (List.mem_filter.mp ha).2
    have hbk := (List.mem_filter.mp hb).2
    simp only [beq_iff_eq] at hak hbk
    simp only [dateDescLe, decide_eq_true_eq, hak, hbk, le_refl]
  have hsub : List.Sublist (u.filter fun r => pd r.date == k)
      (u.mergeSort (dateDescLe pd)) :=
    List.sublist_mergeSort (dateDescLe_trans pd) (dateDescLe_total pd)
      hpair (List.filter_sublist u)
  have hsubf : List.Sublist (u.filter fun r => pd r.date == k)
      ((u.mergeSort (dateDescLe pd)).filter fun r => pd r.date == k) := by
    have := List.Sublist.filter (fun r => pd r.date == k) hsub
    rwa [List.filter_eq_self.mpr
      (fun a ha => (List.mem_filter.mp ha).2)] at this
  have hperm : ((u.mergeSort (dateDescLe pd)).filter fun r => pd r.date == k).Perm
      (u.filter fun r => pd r.date == k) :=
    (List.mergeSort_perm u (dateDescLe pd)).filter _
  exact (List.Sublist.eq_of_length hsubf hperm.length_eq.symm).symm

/-- C2: the multi-sort result is the deduplicated union stably sorted by
parsed date descending and truncated to the limit: it is never longer
than the limit, has exactly the limit's length when enough deduplicated
reviews exist, is sorted by parsed date descending, and extends (by the
dropped tail) to a permutation of the deduplicated union that is sorted
and preserves, date by date, the union's insertion order. -/
theorem spec_c2_sorted_capped (pd : String → Int) (appId : String) (L : Nat)
    (oc : String → FetchOutcome) :
    (getReviewsFull pd appId L oc).length ≤ L ∧
    (L ≤ (collectReviews appId (sortOptions.map fun s => (s, oc s))).length →
      (getReviewsFull pd appId L oc).length = L) ∧
    (getReviewsFull pd appId L oc).Pairwise
      (fun a b => pd b.date ≤ pd a.date) ∧
    ∃ rest,
      (getReviewsFull pd appId L oc ++ rest).Perm
        (collectReviews appId (sortOptions.map fun s => (s, oc s))) ∧
      (getReviewsFull pd appId L oc ++ rest).Pairwise
        (fun a b => pd b.date ≤ pd a.date) ∧
      ∀ k : Int, (getReviewsFull pd appId L oc ++ rest).filter
          (fun r => pd r.date == k) =
        (collectReviews appId (sortOptions.map fun s => (s, oc s))).filter
          (fun r => pd r.date == k) := by
  have hout : getReviewsFull pd appId L oc =
      ((collectReviews appId (sortOptions.map fun s => (s, oc s))).mergeSort
        (dateDescLe pd)).take L := rfl
  have hsorted : ((collectReviews appId
      (sortOptions.map fun s => (s, oc s))).mergeSort
        (dateDescLe pd)).Pairwise (fun a b => pd b.date ≤ pd a.date) := by
    apply List.Pairwise.imp ?_
      (List.sorted_mergeSort (dateDescLe_trans pd) (dateDescLe_total pd) _)
    intro a b h
    simpa only [dateDescLe, decide_eq_true_eq] using h
  refine ⟨?_, ?_, ?_, ?_⟩
  · rw [hout, List.length_take]
    exact min_le_left _ _
  · intro hL
    rw [hout, List.length_take, List.length_mergeSort]
    omega
  · rw [hout]
    exact hsorted.sublist (List.take_sublist _ _)
  · refine ⟨((collectReviews appId
        (sortOptions.map fun s => (s, oc s))).mergeSort
          (dateDescLe pd)).drop L, ?_, ?_, ?_⟩
    · rw [hout, List.take_append_drop]
      exact List.mergeSort_perm _ _
    · rw [hout, List.take_append_drop]
      exact hsorted
    · intro k
      rw [hout, List.take_append_drop]
      exact mergeSort_filter_key pd _ k

set_option maxRecDepth 8000 in
/-- C2 witness: the cap part of the claim evaluated on a concrete run with
three deduplicated reviews and limit two. -/
theorem spec_c2_witness :
    (getReviewsFull wParse "1" 2 wOutcome).length = 2 :=
  (spec_c2_sorted_capped wParse "1" 2 wOutcome).2.1 (by decide)

end ReviewsWorker
